import Mathlib

/-
Verification of the nixdoc core (scope/export resolution, doc-comment
extraction, and option-document rendering) against its specification.

The Rust sources `src/nixdoc/src/main.rs` and `src/nixdoc/src/options.rs`
are embedded shallowly below.  The helper modules `format.rs`, `legacy.rs`,
`comment.rs` and `commonmark.rs` are referenced by `main.rs` but are not part
of the provided sources; the handful of functions from them that the claims
touch (`handle_indentation`, `shift_headings`, `retrieve_legacy_comment`,
`collect_lambda_args_legacy`, `ManualEntry`/`into_entry`) are modelled from
the specification and are marked as such in their doc comments.

Machine integers do not occur on any verified path; Rust `usize` values are
modelled as `Nat` (all quantities involved are small, overflow-free counts).
Rust strings are modelled as Lean `String`, compared through explicit
character-level helpers so that all definitions evaluate by kernel reduction.
-/

/- ===================== character/string level helpers ===================== -/

/-- Whitespace test matching the characters relevant to the sources
(space, tab, newline, carriage return; `str::trim` on the inputs the tool
sees only ever meets these). -/
def isWsChar (c : Char) : Bool := c = ' ' || c = '\t' || c = '\n' || c = '\r'

/-- Strip leading and trailing whitespace from a character list. -/
def trimChars (l : List Char) : List Char :=
  ((l.dropWhile isWsChar).reverse.dropWhile isWsChar).reverse

/-- Models Rust `str::trim`. -/
def strTrim (s : String) : String := String.mk (trimChars s.data)

/-- Models Rust `str::starts_with`. -/
def strStartsWith (s p : String) : Bool := p.data.isPrefixOf s.data

/-- Models Rust `str::strip_prefix`: the remainder after `p` when `p` leads `s`. -/
def stripPfx? (s p : String) : Option String :=
  if p.data.isPrefixOf s.data then some (String.mk (s.data.drop p.data.length)) else none

/-- Models Rust `str::contains(char)`. -/
def strContains (s : String) (c : Char) : Bool := s.data.contains c

/-- True iff the string has no characters. -/
def strIsEmpty (s : String) : Bool := s.data.isEmpty

/-- Drop the first `n` characters of a string. -/
def strDrop (s : String) (n : Nat) : String := String.mk (s.data.drop n)

/-- Count of leading whitespace characters (models `len - trim_start().len`). -/
def leadingWsCount (s : String) : Nat := (s.data.takeWhile isWsChar).length

/-- Auxiliary for `splitSegs`: split on `sep`, keeping empty segments. -/
def splitSegsAux (sep : Char) : List Char → List Char → List String
  | [], acc => [String.mk acc.reverse]
  | c :: cs, acc =>
    if c = sep then String.mk acc.reverse :: splitSegsAux sep cs []
    else splitSegsAux sep cs (c :: acc)

/-- Models Rust `str::split(sep)` (empty segments preserved; never empty). -/
def splitSegs (sep : Char) (s : String) : List String := splitSegsAux sep s.data []

/-- Join a list of strings with a separator (inverse of `splitSegs`). -/
def joinWith (sep : String) : List String → String
  | [] => ""
  | [s] => s
  | s :: rest => s ++ sep ++ joinWith sep rest

/-- Auxiliary for `splitInclusive`. -/
def splitInclusiveAux (sep : Char) : List Char → List Char → List String
  | [], [] => []
  | [], acc => [String.mk acc.reverse]
  | c :: cs, acc =>
    if c = sep then String.mk (c :: acc).reverse :: splitInclusiveAux sep cs []
    else splitInclusiveAux sep cs (c :: acc)

/-- Models Rust `str::split_inclusive(sep)`: each segment keeps its trailing
separator; an empty string yields no segments. -/
def splitInclusive (sep : Char) (s : String) : List String := splitInclusiveAux sep s.data []

/-- Three-way comparison on `Nat`, models Rust `Ord::cmp` on integer types. -/
def natCmp (a b : Nat) : Ordering := if a < b then .lt else if b < a then .gt else .eq

/-- Three-way comparison on characters, models Rust byte comparison (on UTF-8,
bytewise order coincides with code-point order). -/
def charCmp (a b : Char) : Ordering := natCmp a.toNat b.toNat

/-- Lexicographic extension of a comparator to lists.  This renders the Rust
pattern `a.zip(b)` + early return on the first non-equal comparison +
`a.len().cmp(&b.len())` on full agreement: when one list is exhausted only the
length comparison of the remainders is left. -/
def lexList (cmp : α → α → Ordering) : List α → List α → Ordering
  | [], [] => .eq
  | [], _ :: _ => .lt
  | _ :: _, [] => .gt
  | x :: xs, y :: ys => (cmp x y).then (lexList cmp xs ys)

/-- Models Rust `str::cmp` (lexicographic). -/
def strCmp (a b : String) : Ordering := lexList charCmp a.data b.data

/- ===================== spec-modelled text normalizer ===================== -/

/-- Modelled from the spec: `handle_indentation` of the missing `format.rs`
(spec section 4.3, indentation stripping).  The first line is trimmed and
exempt from the common-indentation computation; the minimum leading-whitespace
width across the remaining non-blank lines is stripped from every remaining
line; surrounding blank space is trimmed; an empty result is absence. -/
def stripIndentation (s : String) : String :=
  let lines := splitSegs '\n' s
  match ((lines.filter fun l => !(strIsEmpty (strTrim l))).map leadingWsCount).min? with
  | none => s
  | some m => joinWith "\n" (lines.map fun l => strDrop l m)

/-- Modelled from the spec: see `stripIndentation`. -/
def handle_indentation (raw : String) : Option String :=
  let result :=
    strTrim (match splitSegs '\n' raw with
      | [] => raw
      | [_] => raw
      | first :: rest => strTrim first ++ "\n" ++ stripIndentation (joinWith "\n" rest))
  if strIsEmpty result then none else some result

/-- Modelled from the spec: `shift_headings` of the missing `format.rs`
(spec section 4.3, heading shift): every line beginning with `#` receives
`offset` additional `#` characters; no clamping. -/
def shift_headings (text : String) (offset : Nat) : String :=
  joinWith "\n" ((splitSegs '\n' text).map fun l =>
    if strStartsWith l "#" then String.mk (List.replicate offset '#') ++ l else l)

/- ===================== options.rs: data model ===================== -/

/-- JSON values (`serde_json::Value`).  Numbers are modelled by their decimal
rendering, which is all the renderer ever uses of them. -/
inductive Json where
  | str (s : String)
  | bool (b : Bool)
  | num (n : String)
  | arr (l : List Json)
  | obj (m : List (String × Json))
  | null

/-- Embeds `TaggedValue` of options.rs: a value with a `_type` field. -/
structure TaggedValue where
  valueType : String
  text : Option String

/-- Embeds `OptionValue` of options.rs: the untagged union for default/example
values. -/
inductive OptionValue where
  | tagged (tv : TaggedValue)
  | string (s : String)
  | bool (b : Bool)
  | number (n : String)
  | array (l : List Json)
  | object (m : List (String × Json))
  | null

/-- Embeds `Description` of options.rs. -/
inductive Description where
  | plain (s : String)
  | mdDoc (tyTag : String) (text : String)

def Description.asStr : Description → String
  | .plain s => s
  | .mdDoc _ text => text

/-- Embeds `DeclarationLoc` of options.rs. -/
inductive DeclarationLoc where
  | path (p : String)
  | named (name : String) (url : Option String)

def DeclarationLoc.name : DeclarationLoc → String
  | .path p => p
  | .named n _ => n

def DeclarationLoc.url : DeclarationLoc → Option String
  | .path _ => none
  | .named _ u => u

/-- Embeds `OptionDef` of options.rs (field `example` is renamed to `exampleVal`
because `example` is reserved in Lean). -/
structure OptionDef where
  loc : List String
  description : Option Description
  optionType : Option String
  default : Option OptionValue
  exampleVal : Option OptionValue
  declarations : List DeclarationLoc
  readOnly : Bool
  relatedPackages : Option String

/-- An options map.  Rust uses `HashMap<String, OptionDef>`; the map is
modelled as an association list whose order stands for the (arbitrary)
iteration order of the hash map.  Key lookup is order-independent for
duplicate-free keys, which is proved where needed. -/
def OptionsMap := List (String × OptionDef)

/-- Embeds `RenderOptions` of options.rs (field `anchor_prefix` is shortened to
`anchorPfx` because `prefix` is reserved in Lean). -/
structure RenderOptions where
  anchorPfx : String
  includeDeclarations : Bool
  declarationsBaseUrl : Option String
  revision : Option String

/-- The `Default` impl for `RenderOptions`. -/
def RenderOptions.defaultValue : RenderOptions :=
  { anchorPfx := "opt-", includeDeclarations := true,
    declarationsBaseUrl := none, revision := none }

/- ===================== options.rs: rendering ===================== -/

/-- One character of `md_escape`; the Rust chain of sequential
`str::replace` calls is equivalent to this single character-wise pass,
because the characters a replacement inserts are never rewritten by a later
pass. -/
def mdEscapeChar (c : Char) : List Char :=
  if c = '\\' || c = '*' || c = '_' || c = '[' || c = ']' ||
     c = '<' || c = '>' || c = '`' then ['\\', c] else [c]

/-- Embeds `md_escape` of options.rs. -/
def md_escape (text : String) : String :=
  String.mk (text.data.foldr (fun c acc => mdEscapeChar c ++ acc) [])

/-- Escape one character of a JSON string literal (models the escaping of
`serde_json::to_string`; exotic control characters do not occur in the
verified statements). -/
def jsonEscapeChar (c : Char) : List Char :=
  if c = '"' || c = '\\' then ['\\', c]
  else if c = '\n' then ['\\', 'n']
  else if c = '\t' then ['\\', 't']
  else if c = '\r' then ['\\', 'r']
  else [c]

/-- JSON string literal rendering. -/
def jsonStrLit (s : String) : String :=
  "\"" ++ String.mk (s.data.foldr (fun c acc => jsonEscapeChar c ++ acc) []) ++ "\""

mutual
/-- Models `serde_json::to_string` (compact rendering) as used for array
items in `format_option_value`. -/
def jsonToString : Json → String
  | .str s => jsonStrLit s
  | .bool b => if b then "true" else "false"
  | .num n => n
  | .null => "null"
  | .arr l => "[" ++ jsonListToString l ++ "]"
  | .obj m => "\x7b" ++ jsonObjToString m ++ "\x7d"

def jsonListToString : List Json → String
  | [] => ""
  | [x] => jsonToString x
  | x :: xs => jsonToString x ++ "," ++ jsonListToString xs

def jsonObjToString : List (String × Json) → String
  | [] => ""
  | [p] => jsonStrLit p.1 ++ ":" ++ jsonToString p.2
  | p :: xs => jsonStrLit p.1 ++ ":" ++ jsonToString p.2 ++ "," ++ jsonObjToString xs
end

/-- Embeds `format_option_value` of options.rs. -/
def format_option_value (value : OptionValue) : String :=
  match value with
  | .tagged tagged =>
    match tagged.valueType with
    | "literalExpression" =>
      match tagged.text with
      | some text =>
        if strContains text '\n' then "```nix\n" ++ text ++ "\n```"
        else "`" ++ text ++ "`"
      | none => "`...`"
    | "literalMD" =>
      match tagged.text with
      | some t => t
      | none => ""
    | _ =>
      "`<" ++ tagged.valueType ++ ">: " ++
        (match tagged.text with | some t => t | none => "...") ++ "`"
  | .string s => "`\"" ++ s ++ "\"`"
  | .bool b => "`" ++ (if b then "true" else "false") ++ "`"
  | .number n => "`" ++ n ++ "`"
  | .array arr =>
    match arr with
    | [] => "`[ ]`"
    | _ => "`[ " ++ joinWith " " (arr.map jsonToString) ++ " ]`"
  | .object _ => "`\x7b ... \x7d`"
  | .null => "`null`"

/-- Embeds `make_anchor_id` of options.rs (single-character replacements rendered
character-wise). -/
def make_anchor_id (name : String) (pfx : String) : String :=
  pfx ++ String.mk (name.data.map fun c =>
    if c = '.' then '-' else if c = '<' || c = '>' || c = '*' then '_' else c)

/-- Models Rust `str::trim_end_matches('/')`. -/
def trimTrailingSlashes (s : String) : String :=
  String.mk (s.data.reverse.dropWhile (fun c => c = '/')).reverse

/-- Rendering of one declaration line inside `render_option`. -/
def renderDeclaration (ropts : RenderOptions) (decl : DeclarationLoc) : String :=
  let declName := decl.name
  match decl.url with
  | some url => "- [" ++ md_escape declName ++ "](" ++ url ++ ")\n"
  | none =>
    match ropts.declarationsBaseUrl with
    | some baseUrl =>
      let url :=
        match ropts.revision with
        | some rev => trimTrailingSlashes baseUrl ++ "/blob/" ++ rev ++ "/" ++ declName
        | none => trimTrailingSlashes baseUrl ++ "/blob/master/" ++ declName
      "- [" ++ md_escape declName ++ "](" ++ url ++ ")\n"
    | none => "- `" ++ declName ++ "`\n"

/-- Embeds `render_option` of options.rs. -/
def render_option (name : String) (opt : OptionDef) (ropts : RenderOptions) : String :=
  let anchor := make_anchor_id name ropts.anchorPfx
  let out := "## `" ++ name ++ "` \x7b#" ++ anchor ++ "\x7d\n\n"
  let out := out ++
    (match opt.optionType with
     | some t =>
       "**Type:** `" ++ t ++ "`" ++ (if opt.readOnly then " *(read only)*" else "") ++ "\n\n"
     | none => "")
  let out := out ++
    (match opt.default with
     | some d =>
       let formatted := format_option_value d
       if strContains formatted '\n' then "**Default:**\n\n" ++ formatted ++ "\n\n"
       else "**Default:** " ++ formatted ++ "\n\n"
     | none => "")
  let out := out ++
    (match opt.description with
     | some desc =>
       if strIsEmpty desc.asStr then "" else desc.asStr ++ "\n\n"
     | none => "")
  let out := out ++
    (match opt.exampleVal with
     | some e =>
       let formatted := format_option_value e
       if strContains formatted '\n' then "**Example:**\n\n" ++ formatted ++ "\n\n"
       else "**Example:** " ++ formatted ++ "\n\n"
     | none => "")
  let out := out ++
    (match opt.relatedPackages with
     | some related =>
       if strIsEmpty related then "" else "**Related packages:**\n\n" ++ related ++ "\n\n"
     | none => "")
  let out := out ++
    (if ropts.includeDeclarations && !opt.declarations.isEmpty then
       "**Declared by:**\n\n" ++ joinWith "" (opt.declarations.map (renderDeclaration ropts)) ++ "\n"
     else "")
  out

/- ===================== options.rs: sorting ===================== -/

/-- Embeds `segment_priority` of options.rs: 0 for segments starting with `enable`,
1 for segments starting with `package`, 2 otherwise. -/
def segment_priority (segment : String) : Nat :=
  if strStartsWith segment "enable" then 0
  else if strStartsWith segment "package" then 1
  else 2

/-- Comparison of one pair of path segments inside `compare_option_names`:
first by `segment_priority`, then alphabetically. -/
def segCmp (a b : String) : Ordering :=
  (natCmp (segment_priority a) (segment_priority b)).then (strCmp a b)

/-- The segment-list comparison of `compare_option_names`: positional
comparison of zipped segments, shorter path first on a full tie. -/
def compare_segments (a b : List String) : Ordering := lexList segCmp a b

/-- Embeds `compare_option_names` of options.rs. -/
def compare_option_names (a b : String) : Ordering :=
  compare_segments (splitSegs '.' a) (splitSegs '.' b)

/-- The sort relation induced by `compare_option_names` (Rust `sort_by`). -/
def optionNameLe (a b : String) : Prop := compare_option_names a b ≠ Ordering.gt

instance : DecidableRel optionNameLe := fun a b =>
  inferInstanceAs (Decidable (compare_option_names a b ≠ Ordering.gt))

/-- Key lookup in the options map (Rust `HashMap::get`). -/
def optionsGet (options : OptionsMap) (name : String) : Option OptionDef :=
  ((options : List (String × OptionDef)).find? fun p => p.1 == name).map fun p => p.2

/-- Embeds `render_options_to_commonmark` of options.rs: sort the names with
`compare_option_names`, then render each option in sorted order. -/
def render_options_to_commonmark (options : OptionsMap) (render_opts : RenderOptions) : String :=
  let names := (options : List (String × OptionDef)).map fun p => p.1
  let sorted := List.insertionSort optionNameLe names
  joinWith "" (sorted.map fun name =>
    match optionsGet options name with
    | some opt => render_option name opt render_opts
    | none => "")

/-- Embeds `render_options_document` of options.rs. -/
def render_options_document (options : OptionsMap) (title : String)
    (preamble : Option String) (render_opts : RenderOptions) : String :=
  "# " ++ title ++ "\n\n" ++
    (match preamble with | some pre => pre ++ "\n\n" | none => "") ++
    render_options_to_commonmark options render_opts

/- ===================== options.rs: deserialization model ===================== -/

/-- JSON object member lookup. -/
def jsonLookup (m : List (String × Json)) (k : String) : Option Json :=
  (m.find? fun p => p.1 == k).map fun p => p.2

/-- The `Deserialize` attempt for `TaggedValue` on a JSON object: `_type`
must be present and a string; `text` is optional (absent or `null` becomes
`none`; any other non-string shape fails the variant). -/
def deserTagged (m : List (String × Json)) : Option TaggedValue :=
  match jsonLookup m "_type" with
  | some (.str ty) =>
    match jsonLookup m "text" with
    | none => some { valueType := ty, text := none }
    | some (.str s) => some { valueType := ty, text := some s }
    | some .null => some { valueType := ty, text := none }
    | some _ => none
  | _ => none

/-- The `serde(untagged)` deserializer for `OptionValue`: variants are tried
in declaration order (`Tagged`, `String`, `Bool`, `Number`, `Array`,
`Object`, `Null`); for each JSON shape only the listed variants can match,
and `Object` catches every object that fails the `Tagged` attempt. -/
def deserOptionValue : Json → Option OptionValue
  | .obj m =>
    match deserTagged m with
    | some tv => some (.tagged tv)
    | none => some (.object m)
  | .str s => some (.string s)
  | .bool b => some (.bool b)
  | .num n => some (.number n)
  | .arr l => some (.array l)
  | .null => some .null


/- ===================== comparator facts ===================== -/

theorem natCmp_eq_iff (a b : Nat) : natCmp a b = .eq ↔ a = b := by
  unfold natCmp
  by_cases h1 : a < b <;> by_cases h2 : b < a <;> simp [h1, h2] <;> omega

theorem natCmp_swap (a b : Nat) : (natCmp a b).swap = natCmp b a := by
  unfold natCmp
  by_cases h1 : a < b <;> by_cases h2 : b < a <;> simp [h1, h2, Ordering.swap] <;> omega

theorem natCmp_lt_trans (a b c : Nat) (h1 : natCmp a b = .lt) (h2 : natCmp b c = .lt) :
    natCmp a c = .lt := by
  unfold natCmp at *
  split at h1
  · split at h2
    · simp [show a < c by omega]
    · simp_all
  · simp_all

theorem charCmp_eq_iff (a b : Char) : charCmp a b = .eq ↔ a = b := by
  unfold charCmp
  rw [natCmp_eq_iff]
  constructor
  · intro h
    have h2 : Char.ofNat a.toNat = Char.ofNat b.toNat := by rw [h]
    simpa [Char.ofNat_toNat] using h2
  · intro h
    rw [h]

theorem charCmp_swap (a b : Char) : (charCmp a b).swap = charCmp b a := natCmp_swap _ _

theorem charCmp_lt_trans (a b c : Char) (h1 : charCmp a b = .lt) (h2 : charCmp b c = .lt) :
    charCmp a c = .lt := natCmp_lt_trans _ _ _ h1 h2

theorem lexList_eq_iff (cmp : α → α → Ordering) (hE : ∀ x y, cmp x y = .eq ↔ x = y) :
    ∀ xs ys, lexList cmp xs ys = .eq ↔ xs = ys := by
  intro xs
  induction xs with
  | nil => intro ys; cases ys <;> simp [lexList]
  | cons x xs ih =>
    intro ys
    cases ys with
    | nil => simp [lexList]
    | cons y ys =>
      simp only [lexList, Ordering.then_eq_eq, ih, hE, List.cons.injEq]

theorem lexList_swap (cmp : α → α → Ordering) (hS : ∀ x y, (cmp x y).swap = cmp y x) :
    ∀ xs ys, (lexList cmp xs ys).swap = lexList cmp ys xs := by
  intro xs
  induction xs with
  | nil => intro ys; cases ys <;> rfl
  | cons x xs ih =>
    intro ys
    cases ys with
    | nil => rfl
    | cons y ys =>
      simp only [lexList, Ordering.swap_then, hS, ih]

theorem lexList_lt_trans (cmp : α → α → Ordering)
    (hE : ∀ x y, cmp x y = .eq ↔ x = y)
    (hT : ∀ x y z, cmp x y = .lt → cmp y z = .lt → cmp x z = .lt) :
    ∀ xs ys zs, lexList cmp xs ys = .lt → lexList cmp ys zs = .lt → lexList cmp xs zs = .lt := by
  intro xs
  induction xs with
  | nil =>
    intro ys zs h1 h2
    cases ys with
    | nil => exact h2
    | cons y ys =>
      cases zs with
      | nil => simp [lexList] at h2
      | cons z zs => simp [lexList]
  | cons x xs ih =>
    intro ys zs h1 h2
    cases ys with
    | nil => simp [lexList] at h1
    | cons y ys =>
      cases zs with
      | nil => simp [lexList] at h2
      | cons z zs =>
        rw [lexList, Ordering.then_eq_lt] at h1 h2 ⊢
        rcases h1 with h1 | ⟨h1, h1t⟩ <;> rcases h2 with h2 | ⟨h2, h2t⟩
        · exact Or.inl (hT x y z h1 h2)
        · have hy : y = z := (hE y z).mp h2
          exact Or.inl (hy ▸ h1)
        · have hx : x = y := (hE x y).mp h1
          exact Or.inl (hx ▸ h2)
        · have hx : x = y := (hE x y).mp h1
          have hy : y = z := (hE y z).mp h2
          exact Or.inr ⟨(hE x z).mpr (hx.trans hy), ih ys zs h1t h2t⟩

theorem strCmp_eq_iff (a b : String) : strCmp a b = .eq ↔ a = b := by
  unfold strCmp
  rw [lexList_eq_iff charCmp charCmp_eq_iff]
  constructor
  · intro h
    cases a; cases b
    exact congrArg String.mk h
  · intro h; rw [h]

theorem strCmp_swap (a b : String) : (strCmp a b).swap = strCmp b a :=
  lexList_swap charCmp charCmp_swap a.data b.data

theorem strCmp_lt_trans (a b c : String) (h1 : strCmp a b = .lt) (h2 : strCmp b c = .lt) :
    strCmp a c = .lt :=
  lexList_lt_trans charCmp charCmp_eq_iff charCmp_lt_trans a.data b.data c.data h1 h2

theorem segCmp_eq_iff (a b : String) : segCmp a b = .eq ↔ a = b := by
  unfold segCmp
  rw [Ordering.then_eq_eq, natCmp_eq_iff, strCmp_eq_iff]
  constructor
  · exact fun h => h.2
  · intro h; subst h; exact ⟨rfl, rfl⟩

theorem segCmp_swap (a b : String) : (segCmp a b).swap = segCmp b a := by
  unfold segCmp
  rw [Ordering.swap_then, natCmp_swap, strCmp_swap]

theorem segCmp_lt_trans (a b c : String) (h1 : segCmp a b = .lt) (h2 : segCmp b c = .lt) :
    segCmp a c = .lt := by
  unfold segCmp at *
  rw [Ordering.then_eq_lt] at h1 h2 ⊢
  rcases h1 with h1 | ⟨h1, h1t⟩ <;> rcases h2 with h2 | ⟨h2, h2t⟩
  · exact Or.inl (natCmp_lt_trans _ _ _ h1 h2)
  · have hy := (natCmp_eq_iff _ _).mp h2
    exact Or.inl (hy ▸ h1)
  · have hx := (natCmp_eq_iff _ _).mp h1
    exact Or.inl (hx ▸ h2)
  · have hx := (natCmp_eq_iff _ _).mp h1
    have hy := (natCmp_eq_iff _ _).mp h2
    exact Or.inr ⟨(natCmp_eq_iff _ _).mpr (hx.trans hy), strCmp_lt_trans _ _ _ h1t h2t⟩

theorem compare_segments_eq_iff (a b : List String) :
    compare_segments a b = .eq ↔ a = b :=
  lexList_eq_iff segCmp segCmp_eq_iff a b

theorem compare_segments_swap (a b : List String) :
    (compare_segments a b).swap = compare_segments b a :=
  lexList_swap segCmp segCmp_swap a b

theorem compare_segments_lt_trans (a b c : List String)
    (h1 : compare_segments a b = .lt) (h2 : compare_segments b c = .lt) :
    compare_segments a c = .lt :=
  lexList_lt_trans segCmp segCmp_eq_iff segCmp_lt_trans a b c h1 h2

/- ===================== splitSegs retraction ===================== -/

theorem splitSegsAux_ne_nil (sep : Char) (cs acc : List Char) :
    splitSegsAux sep cs acc ≠ [] := by
  induction cs generalizing acc with
  | nil => simp [splitSegsAux]
  | cons c cs ih =>
    unfold splitSegsAux
    by_cases h : c = sep <;> simp [h, ih]

theorem joinWith_cons (sep : String) (s : String) (rest : List String) (h : rest ≠ []) :
    joinWith sep (s :: rest) = s ++ sep ++ joinWith sep rest := by
  cases rest with
  | nil => exact absurd rfl h
  | cons r rs => rfl

theorem joinWith_splitSegsAux (sep : Char) (cs acc : List Char) :
    joinWith (String.mk [sep]) (splitSegsAux sep cs acc) = String.mk (acc.reverse ++ cs) := by
  induction cs generalizing acc with
  | nil => simp [splitSegsAux, joinWith]
  | cons c cs ih =>
    unfold splitSegsAux
    by_cases h : c = sep
    · simp only [h, if_true]
      rw [joinWith_cons _ _ _ (splitSegsAux_ne_nil sep cs []), ih]
      show String.mk (acc.reverse ++ [sep] ++ ([].reverse ++ cs)) = _
      simp [List.append_assoc]
    · simp only [h, if_false]
      rw [ih]
      simp

theorem joinWith_splitSegs (sep : Char) (s : String) :
    joinWith (String.mk [sep]) (splitSegs sep s) = s := by
  unfold splitSegs
  rw [joinWith_splitSegsAux]
  cases s; rfl

theorem splitSegs_injective (sep : Char) (a b : String)
    (h : splitSegs sep a = splitSegs sep b) : a = b := by
  have ha := joinWith_splitSegs sep a
  have hb := joinWith_splitSegs sep b
  rw [← ha, ← hb, h]

/- ===================== compare_option_names as a total order ===================== -/

theorem compare_option_names_eq_iff (a b : String) :
    compare_option_names a b = .eq ↔ a = b := by
  unfold compare_option_names
  rw [compare_segments_eq_iff]
  constructor
  · exact splitSegs_injective '.' a b
  · intro h; rw [h]

theorem compare_option_names_swap (a b : String) :
    (compare_option_names a b).swap = compare_option_names b a :=
  compare_segments_swap _ _

theorem compare_option_names_lt_trans (a b c : String)
    (h1 : compare_option_names a b = .lt) (h2 : compare_option_names b c = .lt) :
    compare_option_names a c = .lt :=
  compare_segments_lt_trans _ _ _ h1 h2

theorem optionNameLe_total (a b : String) : optionNameLe a b ∨ optionNameLe b a := by
  unfold optionNameLe
  by_cases h : compare_option_names a b = .gt
  · right
    rw [← compare_option_names_swap a b, h]
    simp [Ordering.swap]
  · left; exact h

theorem optionNameLe_trans (a b c : String)
    (h1 : optionNameLe a b) (h2 : optionNameLe b c) : optionNameLe a c := by
  unfold optionNameLe at *
  cases hab : compare_option_names a b with
  | gt => exact absurd hab h1
  | eq =>
    have : a = b := (compare_option_names_eq_iff a b).mp hab
    rw [this]; exact h2
  | lt =>
    cases hbc : compare_option_names b c with
    | gt => exact absurd hbc h2
    | eq =>
      have : b = c := (compare_option_names_eq_iff b c).mp hbc
      rw [← this]
      intro hc; rw [hab] at hc; exact absurd hc (by simp)
    | lt =>
      intro hc
      rw [compare_option_names_lt_trans a b c hab hbc] at hc
      exact absurd hc (by simp)

theorem optionNameLe_antisymm (a b : String)
    (h1 : optionNameLe a b) (h2 : optionNameLe b a) : a = b := by
  unfold optionNameLe at *
  cases hab : compare_option_names a b with
  | eq => exact (compare_option_names_eq_iff a b).mp hab
  | gt => exact absurd hab h1
  | lt =>
    exfalso
    apply h2
    rw [← compare_option_names_swap a b, hab]
    rfl

/- ===================== association-list lookup under permutation ===================== -/

theorem find?_key_perm {β : Type} (l1 l2 : List (String × β)) (h : List.Perm l1 l2)
    (hnd : (l1.map fun p => p.1).Nodup) (n : String) :
    l1.find? (fun p => p.1 == n) = l2.find? (fun p => p.1 == n) := by
  cases hf : l1.find? (fun p => p.1 == n) with
  | none =>
    symm
    rw [List.find?_eq_none]
    intro p hp
    exact List.find?_eq_none.mp hf p (h.symm.subset hp)
  | some p =>
    have hp1 : p ∈ l1 := List.mem_of_find?_eq_some hf
    have hpn : (p.1 == n) = true := List.find?_some (p := fun q : String × β => q.1 == n) hf
    have hsome : (l2.find? (fun q => q.1 == n)).isSome := by
      rw [List.find?_isSome]
      exact ⟨p, h.subset hp1, hpn⟩
    cases hf2 : l2.find? (fun q => q.1 == n) with
    | none => rw [hf2] at hsome; simp at hsome
    | some q =>
      have hq1 : q ∈ l1 := h.symm.subset (List.mem_of_find?_eq_some hf2)
      have hqn : (q.1 == n) = true := List.find?_some (p := fun q : String × β => q.1 == n) hf2
      have hpq : p = q := by
        apply List.inj_on_of_nodup_map hnd hp1 hq1
        rw [beq_iff_eq] at hpn hqn
        show p.1 = q.1
        rw [hpn, hqn]
      rw [hpq]

/-- The options pipeline's output is invariant under reordering of the
(hash-map modelled) input association list, provided keys are duplicate-free:
the renderer sorts the names with `compare_option_names`, which is a total
order with equality only on equal names. -/
theorem render_options_to_commonmark_perm (l1 l2 : OptionsMap) (ropts : RenderOptions)
    (hnd : ((l1 : List (String × OptionDef)).map fun p => p.1).Nodup)
    (h : List.Perm (l1 : List (String × OptionDef)) l2) :
    render_options_to_commonmark l1 ropts = render_options_to_commonmark l2 ropts := by
  simp only [render_options_to_commonmark]
  haveI : IsTotal String optionNameLe := ⟨optionNameLe_total⟩
  haveI : IsTrans String optionNameLe := ⟨optionNameLe_trans⟩
  haveI : IsAntisymm String optionNameLe := ⟨optionNameLe_antisymm⟩
  have hsorted :
      List.insertionSort optionNameLe ((l1 : List (String × OptionDef)).map fun p => p.1)
        = List.insertionSort optionNameLe ((l2 : List (String × OptionDef)).map fun p => p.1) :=
    List.eq_of_perm_of_sorted
      (((List.perm_insertionSort optionNameLe _).trans (h.map _)).trans
        (List.perm_insertionSort optionNameLe _).symm)
      (List.sorted_insertionSort optionNameLe _)
      (List.sorted_insertionSort optionNameLe _)
  rw [hsorted]
  congr 1
  apply List.map_congr_left
  intro name _
  unfold optionsGet
  rw [find?_key_perm l1 l2 h hnd name]

/- ===================== claim C2 ===================== -/

/-- An `OptionDef` with every optional field absent (used for concrete
ordering statements). -/
def emptyOptionDef : OptionDef :=
  { loc := [], description := none, optionType := none, default := none,
    exampleVal := none, declarations := [], readOnly := false, relatedPackages := none }

/-- A concrete options map listing `svc.port`, `svc.enable`, `svc.package`
deliberately out of presentation order. -/
def svcOptions : OptionsMap :=
  [("svc.port", emptyOptionDef), ("svc.enable", emptyOptionDef), ("svc.package", emptyOptionDef)]

/-- C2: option rendering orders names by `compare_option_names`: dotted names
are compared segment-by-segment; a segment starting with `enable` (priority 0)
sorts before one starting with `package` (priority 1), which sorts before all
other segments (priority 2); ties within a bucket break alphabetically; equal
heads defer to the tails, and a strict prefix of a segment list sorts first
(shorter name wins); concretely `svc.enable`, `svc.package`, `svc.port`
render in exactly that order. -/
theorem option_sort_order :
    (∀ x y : String, strStartsWith x "enable" = true → strStartsWith y "package" = true →
      segment_priority x = 0 ∧ segment_priority y = 1)
    ∧ (∀ y : String, strStartsWith y "enable" = false → strStartsWith y "package" = false →
      segment_priority y = 2)
    ∧ (∀ (x y : String) (xs ys : List String), segment_priority x < segment_priority y →
      compare_segments (x :: xs) (y :: ys) = .lt)
    ∧ (∀ (x y : String) (xs ys : List String), segment_priority x = segment_priority y →
      strCmp x y = .lt → compare_segments (x :: xs) (y :: ys) = .lt)
    ∧ (∀ (x : String) (xs ys : List String),
      compare_segments (x :: xs) (x :: ys) = compare_segments xs ys)
    ∧ (∀ (xs ys : List String), ys ≠ [] → compare_segments xs (xs ++ ys) = .lt)
    ∧ (∀ a b : String,
      compare_option_names a b = compare_segments (splitSegs '.' a) (splitSegs '.' b))
    ∧ render_options_to_commonmark svcOptions RenderOptions.defaultValue
        = joinWith "" (["svc.enable", "svc.package", "svc.port"].map fun n =>
            render_option n emptyOptionDef RenderOptions.defaultValue) := by
  refine ⟨?_, ?_, ?_, ?_, ?_, ?_, ?_, ?_⟩
  · intro x y hx hy
    constructor
    · unfold segment_priority
      rw [hx]
      rfl
    · have hne : strStartsWith y "enable" = false := by
        unfold strStartsWith at hy ⊢
        rw [List.isPrefixOf_iff_prefix] at hy
        obtain ⟨rest, hrest⟩ := hy
        cases hn : ("enable".data.isPrefixOf y.data) with
        | false => rfl
        | true =>
          exfalso
          rw [List.isPrefixOf_iff_prefix] at hn
          obtain ⟨rest2, hrest2⟩ := hn
          have h1 : y.data.head? = some 'p' := by rw [← hrest]; rfl
          have h2 : y.data.head? = some 'e' := by rw [← hrest2]; rfl
          rw [h1] at h2
          simp at h2
      unfold segment_priority
      rw [hne, hy]
      rfl
  · intro y h1 h2
    unfold segment_priority
    rw [h1, h2]
    rfl
  · intro x y xs ys h
    have hn : natCmp (segment_priority x) (segment_priority y) = .lt := by
      unfold natCmp
      simp [h]
    show (segCmp x y).then (compare_segments xs ys) = .lt
    unfold segCmp
    rw [hn]
    rfl
  · intro x y xs ys hp hs
    have hn : natCmp (segment_priority x) (segment_priority y) = .eq :=
      (natCmp_eq_iff _ _).mpr hp
    show (segCmp x y).then (compare_segments xs ys) = .lt
    unfold segCmp
    rw [hn, hs]
    rfl
  · intro x xs ys
    show (segCmp x x).then (compare_segments xs ys) = compare_segments xs ys
    rw [(segCmp_eq_iff x x).mpr rfl]
    rfl
  · intro xs
    induction xs with
    | nil =>
      intro ys h
      cases ys with
      | nil => exact absurd rfl h
      | cons y ys => rfl
    | cons x xs ih =>
      intro ys h
      show (segCmp x x).then (compare_segments xs (xs ++ ys)) = .lt
      rw [(segCmp_eq_iff x x).mpr rfl, ih ys h]
      rfl
  · intro a b
    rfl
  · rfl

/-- Witness for C2: concrete instantiations of the hypotheses-carrying
conjuncts of `option_sort_order`. -/
theorem option_sort_order_witness :
    compare_segments ["enable"] ["package"] = Ordering.lt
    ∧ compare_segments ["svc", "alpha"] ["svc", "beta"] = Ordering.lt
    ∧ compare_segments ["svc"] ["svc", "port"] = Ordering.lt :=
  ⟨option_sort_order.2.2.1 "enable" "package" [] [] (by decide),
   option_sort_order.2.2.2.1 "alpha" "beta" [] [] (by decide) (by decide),
   option_sort_order.2.2.2.2.2.1 ["svc"] ["port"] (by decide)⟩

/- ===================== claims C7 and C8 ===================== -/

/-- C7: `format_option_value` renders a multi-line `literalExpression` as a
fenced code block, a single-line `literalExpression` as inline code, passes a
`literalMD` text through unchanged, renders raw strings, booleans and numbers
as inline backtick-quoted scalars, arrays as a bracketed inline list, and
untagged objects and null as fixed placeholders. -/
theorem format_option_value_cases :
    (∀ t : String, strContains t '\n' = true →
      format_option_value (.tagged { valueType := "literalExpression", text := some t })
        = "```nix\n" ++ t ++ "\n```")
    ∧ (∀ t : String, strContains t '\n' = false →
      format_option_value (.tagged { valueType := "literalExpression", text := some t })
        = "`" ++ t ++ "`")
    ∧ (∀ t : String,
      format_option_value (.tagged { valueType := "literalMD", text := some t }) = t)
    ∧ (∀ s : String, format_option_value (.string s) = "`\"" ++ s ++ "\"`")
    ∧ (∀ b : Bool, format_option_value (.bool b) = "`" ++ (if b then "true" else "false") ++ "`")
    ∧ (∀ n : String, format_option_value (.number n) = "`" ++ n ++ "`")
    ∧ format_option_value (.array []) = "`[ ]`"
    ∧ (∀ (j : Json) (l : List Json),
      format_option_value (.array (j :: l)) = "`[ " ++ joinWith " " ((j :: l).map jsonToString) ++ " ]`")
    ∧ (∀ m : List (String × Json), format_option_value (.object m) = "`\x7b ... \x7d`")
    ∧ format_option_value .null = "`null`" := by
  refine ⟨?_, ?_, ?_, ?_, ?_, ?_, rfl, ?_, ?_, rfl⟩
  · intro t h
    simp [format_option_value, h]
  · intro t h
    simp [format_option_value, h]
  · intro t
    rfl
  · intro s
    rfl
  · intro b
    rfl
  · intro n
    rfl
  · intro j l
    rfl
  · intro m
    rfl

/-- Witness for C7: the hypothesis-carrying conjuncts of
`format_option_value_cases` instantiated at concrete texts. -/
theorem format_option_value_cases_witness :
    format_option_value (.tagged { valueType := "literalExpression", text := some "a\nb" })
      = "```nix\n" ++ "a\nb" ++ "\n```"
    ∧ format_option_value (.tagged { valueType := "literalExpression", text := some "false" })
      = "`" ++ "false" ++ "`" :=
  ⟨format_option_value_cases.1 "a\nb" (by decide),
   format_option_value_cases.2.1 "false" (by decide)⟩

/-- C8: every JSON value deserializes into `OptionValue` (the untagged union
has a catch-all `Object` variant and a `Null` variant, so the field-level
parse never fails), an object that fails the `Tagged` attempt lands in the
`Object` variant, and the renderer degrades unknown shapes to explicit
placeholders instead of failing: an unknown tagged `_type` renders as an
inline `<type>: text` code span and an untagged object as the fixed
placeholder. -/
theorem option_value_parse_total :
    (∀ j : Json, (deserOptionValue j).isSome = true)
    ∧ (∀ m : List (String × Json), deserTagged m = none →
        deserOptionValue (.obj m) = some (.object m))
    ∧ (∀ tv : TaggedValue, deserTagged [("_type", .str tv.valueType)]
        = some { valueType := tv.valueType, text := none })
    ∧ (∀ tv : TaggedValue, tv.valueType ≠ "literalExpression" → tv.valueType ≠ "literalMD" →
        format_option_value (.tagged tv)
          = "`<" ++ tv.valueType ++ ">: "
              ++ (match tv.text with | some t => t | none => "...") ++ "`")
    ∧ (∀ m : List (String × Json), format_option_value (.object m) = "`\x7b ... \x7d`") := by
  refine ⟨?_, ?_, ?_, ?_, ?_⟩
  · intro j
    cases j with
    | obj m =>
      simp only [deserOptionValue]
      cases deserTagged m <;> simp
    | str s => rfl
    | bool b => rfl
    | num n => rfl
    | arr l => rfl
    | null => rfl
  · intro m h
    simp [deserOptionValue, h]
  · intro tv
    rfl
  · intro tv h1 h2
    simp only [format_option_value]
  · intro m
    rfl

/-- Witness for C8: the hypothesis-carrying conjuncts of
`option_value_parse_total` at concrete inputs. -/
theorem option_value_parse_total_witness :
    deserOptionValue (.obj [("foo", .null)]) = some (.object [("foo", .null)])
    ∧ format_option_value (.tagged { valueType := "mystery", text := some "x" })
        = "`<" ++ "mystery" ++ ">: " ++ "x" ++ "`" :=
  ⟨option_value_parse_total.2.1 [("foo", .null)] rfl,
   option_value_parse_total.2.2.2.1 { valueType := "mystery", text := some "x" }
     (by decide) (by decide)⟩

/- ===================== main.rs: syntax-tree model ===================== -/

/-- An `inherit` attribute: either an identifier or something else
(string/dynamic keys, which the resolver skips). -/
inductive InheritAttr where
  | ident (name : String)
  | nonIdent

mutual
/-- Model of the rnix syntax tree as consumed by main.rs: a node with one of
the kinds the resolver discriminates (identifier, lambda, attribute set,
let-in, lambda pattern) plus `lit` for literal leaves and `other` for every
remaining node kind (whose children are still traversed in preorder).
Attrpath texts are modelled as their rendered strings; the doc-comment and
legacy-comment lookups of the external locator (`get_expr_docs` of the
missing `comment.rs`, `retrieve_legacy_comment` of the missing `legacy.rs`)
are modelled as optional string fields attached to each binding. -/
inductive NExpr where
  | ident (name : String)
  | lit (text : String)
  | lambda (param : NExpr) (body : NExpr)
  | attrSet (children : List SetChild)
  | letIn (children : List SetChild) (body : Option NExpr)
  | pattern (children : List NExpr)
  | other (children : List NExpr)

/-- A direct child of an attribute set or let-in: an attrpath-value binding
(`apv`), an inherit clause (with optional `from` source), or any other node. -/
inductive SetChild where
  | apv (path : String) (value : Option NExpr) (docComment : Option String)
    (legacyComment : Option String)
  | inh (fromClause : Option NExpr) (attrs : List InheritAttr)
  | nonBinding (e : NExpr)
end

/-- Record view `AttrpathValue` of a view of a `SetChild.apv` node. -/
structure AttrpathValue where
  path : String
  value : Option NExpr
  docComment : Option String
  legacyComment : Option String

/-- Embeds `AttrpathValue::cast` on a child node (succeeds exactly on `apv`). -/
def SetChild.toApv : SetChild → Option AttrpathValue
  | .apv p v d l => some { path := p, value := v, docComment := d, legacyComment := l }
  | _ => none

/-- Result of the top-level preorder walk of `collect_entries`: the first
let-in or attribute set encountered. -/
inductive TopNode where
  | letInNode (children : List SetChild) (body : Option NExpr)
  | attrSetNode (children : List SetChild)

mutual
/-- The top-level preorder walk of `collect_entries` (main.rs lines 392-434):
skip lambda-pattern subtrees entirely, stop at the first let-in or attribute
set. -/
def findTop : NExpr → Option TopNode
  | .pattern _ => none
  | .letIn ch b => some (.letInNode ch b)
  | .attrSet ch => some (.attrSetNode ch)
  | .ident _ => none
  | .lit _ => none
  | .lambda p b => (findTop p).orElse fun _ => findTop b
  | .other ch => findTopList ch

def findTopList : List NExpr → Option TopNode
  | [] => none
  | e :: es => (findTop e).orElse fun _ => findTopList es
end

mutual
/-- The preorder search of `collect_bindings` (main.rs lines 315-343) for the
first `NODE_ATTR_SET` in a subtree (no pattern skipping here). -/
def firstAttrSet : NExpr → Option (List SetChild)
  | .attrSet ch => some ch
  | .ident _ => none
  | .lit _ => none
  | .lambda p b => (firstAttrSet p).orElse fun _ => firstAttrSet b
  | .letIn ch b =>
    (firstAttrSetChildren ch).orElse fun _ =>
      match b with
      | some e => firstAttrSet e
      | none => none
  | .pattern ch => firstAttrSetList ch
  | .other ch => firstAttrSetList ch

def firstAttrSetList : List NExpr → Option (List SetChild)
  | [] => none
  | e :: es => (firstAttrSet e).orElse fun _ => firstAttrSetList es

def firstAttrSetChildren : List SetChild → Option (List SetChild)
  | [] => none
  | c :: cs => (firstAttrSetChild c).orElse fun _ => firstAttrSetChildren cs

def firstAttrSetChild : SetChild → Option (List SetChild)
  | .apv _ v _ _ =>
    match v with
    | some e => firstAttrSet e
    | none => none
  | .inh f _ =>
    match f with
    | some e => firstAttrSet e
    | none => none
  | .nonBinding e => firstAttrSet e
end

/- ===================== main.rs: doc items ===================== -/

/-- Embeds `DocComment` of main.rs (field `example` is renamed to `exampleText`
because `example` is reserved in Lean). -/
structure DocComment where
  doc : String
  doc_type : Option String
  exampleText : Option String

/-- Modelled from the spec: a `LegacyArg` (spec section 3) of the missing
`legacy.rs` — a lambda parameter name or a destructured-pattern placeholder. -/
inductive Argument where
  | flat (name : String)
  | patternArg (fields : List String)

/-- Embeds `LegacyDocItem` of the missing `legacy.rs` (name, parsed comment,
collected arguments); the shape is fixed by its uses in main.rs. -/
structure LegacyDocItem where
  name : String
  comment : DocComment
  args : List Argument

/-- Embeds `DocItem` of main.rs. -/
structure DocItem where
  name : String
  comment : DocComment

/-- Embeds `DocItemOrLegacy` of main.rs. -/
inductive DocItemOrLegacy where
  | legacyItem (v : LegacyDocItem)
  | docItem (v : DocItem)

/-- Modelled from the spec: `ManualEntry` of the missing `commonmark.rs`
(spec section 3); field names follow the construction in `test.rs`
(`prefix` and `example` are renamed to `pfx`/`exampleText` because they are
reserved in Lean). -/
structure ManualEntry where
  pfx : String
  category : String
  name : String
  description : List String
  fn_type : Option String
  exampleText : Option String
  args : List Argument
  location : Option String

/-- Lookup in the location map (Rust `HashMap<String, String>` deserialized
from JSON, so keys are unique and lookup is order-independent). -/
def locsGet (locs : List (String × String)) (name : String) : Option String :=
  (locs.find? fun p => p.1 == name).map fun p => p.2

/-- Modelled from the spec: `into_entry` of the missing `commonmark.rs` —
a `ManualEntry` is constructed once from a resolved doc item plus the
prefix/category/location context (spec section 3, `ManualEntry` lifecycle). -/
def LegacyDocItem.into_entry (di : LegacyDocItem) (pfx category : String)
    (locs : List (String × String)) : ManualEntry :=
  { pfx := pfx, category := category, name := di.name,
    description := [di.comment.doc], fn_type := di.comment.doc_type,
    exampleText := di.comment.exampleText, args := di.args,
    location := locsGet locs di.name }

/-- Modelled from the spec: one lambda parameter as a `LegacyArg`. -/
def lambdaParamArg : NExpr → Argument
  | .ident n => .flat n
  | .pattern ch => .patternArg (ch.filterMap fun e =>
      match e with
      | .ident n => some n
      | _ => none)
  | _ => .flat ""

/-- Modelled from the spec: `collect_lambda_args_legacy` of the missing
`legacy.rs` — walk the chain of curried lambdas, recording each parameter
(flat name or destructured pattern) once, stopping at the first non-lambda
body (spec sections 3 and 4.2). -/
def collect_lambda_args_legacy : NExpr → List Argument
  | .lambda p b => lambdaParamArg p :: collect_lambda_args_legacy b
  | _ => []

/-- Embeds `retrieve_doc_comment` of main.rs (lines 189-201): the structured
doc-comment lookup (`get_expr_docs`, modelled as the `docComment` field),
indentation-normalized and heading-shifted by the given offset (default 2). -/
def retrieve_doc_comment (node : AttrpathValue) (shiftHeadingsBy : Option Nat) : Option String :=
  node.docComment.map fun doc_comment =>
    shift_headings
      (match handle_indentation doc_comment with
       | some s => s
       | none => "")
      (match shiftHeadingsBy with
       | some n => n
       | none => 2)

/-- Scanner state of `parse_doc_comment` (main.rs lines 236-240). -/
inductive ParseState where
  | doc
  | ty
  | ex

/-- The three accumulation buffers of `parse_doc_comment`. -/
structure ScanBufs where
  doc_str : String
  type_str : String
  example_str : String

/-- One line of `parse_doc_comment`'s loop (main.rs lines 249-266): a line
whose trimmed form starts with `Type:` (checked first) switches to the Type
state and pushes the remainder plus a newline onto the type buffer; likewise
`Example:`; any other line is appended (untrimmed, with its newline) to the
buffer of the current state. -/
def scanLine : ParseState × ScanBufs → String → ParseState × ScanBufs
  | (state, bufs), line =>
    let trimmed_line := strTrim line
    match stripPfx? trimmed_line "Type:" with
    | some suffix => (.ty, { bufs with type_str := bufs.type_str ++ suffix ++ "\n" })
    | none =>
      match stripPfx? trimmed_line "Example:" with
      | some suffix => (.ex, { bufs with example_str := bufs.example_str ++ suffix ++ "\n" })
      | none =>
        match state with
        | .doc => (state, { bufs with doc_str := bufs.doc_str ++ line })
        | .ty => (state, { bufs with type_str := bufs.type_str ++ line })
        | .ex => (state, { bufs with example_str := bufs.example_str ++ line })

/-- Embeds `parse_doc_comment` of main.rs (lines 235-273). -/
def parse_doc_comment (raw : String) : DocComment :=
  let scanned := (splitInclusive '\n' raw).foldl scanLine (.doc, ⟨"", "", ""⟩)
  { doc :=
      (match handle_indentation scanned.2.doc_str with
       | some s => s
       | none => ""),
    doc_type := handle_indentation scanned.2.type_str,
    exampleText := handle_indentation scanned.2.example_str }

/-- Embeds `retrieve_doc_item` of main.rs (lines 205-232): structured doc-comment
first; fall back to the legacy comment (modelled as the `legacyComment`
field) parsed by `parse_doc_comment`. -/
def retrieve_doc_item (node : AttrpathValue) : Option DocItemOrLegacy :=
  let item_name := node.path
  match retrieve_doc_comment node (some 2) with
  | some comment =>
    some (.docItem
      { name := item_name,
        comment := { doc := comment, doc_type := none, exampleText := none } })
  | none =>
    node.legacyComment.map fun comment =>
      .legacyItem { name := item_name, comment := parse_doc_comment comment, args := [] }

/-- Embeds `collect_entry_information` of main.rs (lines 282-303). -/
def collect_entry_information (entry : AttrpathValue) : Option LegacyDocItem :=
  (retrieve_doc_item entry).map fun doc_item =>
    match doc_item with
    | .legacyItem v =>
      match entry.value with
      | some (.lambda p b) => { v with args := collect_lambda_args_legacy (.lambda p b) }
      | _ => v
    | .docItem v => { args := [], name := v.name, comment := v.comment }

/- ===================== main.rs: scope and collection ===================== -/

/-- Lookup in a let-block scope.  The Rust scope is a `HashMap` built with
`collect()`, where a later binding of the same name overwrites an earlier
one, so the lookup takes the last matching entry of the association list. -/
def scopeGet (scope : List (String × ManualEntry)) (name : String) : Option ManualEntry :=
  ((scope.filter fun p => p.1 == name).getLast?).map fun p => p.2

/-- The scope construction of `collect_entries` (main.rs lines 401-406):
every directly-contained attrpath-value binding with a doc item, keyed by its
name. -/
def mkScope (children : List SetChild) (pfx category : String)
    (locs : List (String × String)) : List (String × ManualEntry) :=
  ((children.filterMap SetChild.toApv).filterMap collect_entry_information).map
    fun di => (di.name, di.into_entry pfx category locs)

/-- The per-child step of `collect_bindings` (main.rs lines 319-337):
an attrpath-value child contributes its doc entry; `inherit (from) ...` is
skipped; a bare `inherit` contributes the pre-resolved scope entry of each
identifier attribute. -/
def binding_entries (pfx category : String) (locs : List (String × String))
    (scope : List (String × ManualEntry)) : SetChild → List ManualEntry
  | .apv p v d l =>
    match collect_entry_information { path := p, value := v, docComment := d, legacyComment := l } with
    | some di => [di.into_entry pfx category locs]
    | none => []
  | .inh (some _) _ => []
  | .inh none attrs =>
    attrs.filterMap fun a =>
      match a with
      | .ident i => scopeGet scope i
      | .nonIdent => none
  | .nonBinding _ => []

/-- Embeds `collect_bindings` of main.rs (lines 308-346). -/
def collect_bindings (node : NExpr) (pfx category : String) (locs : List (String × String))
    (scope : List (String × ManualEntry)) : List ManualEntry :=
  match firstAttrSet node with
  | some children => children.foldr (fun c acc => binding_entries pfx category locs scope c ++ acc) []
  | none => []

/-- Embeds `find_let_binding` of main.rs (lines 350-362): the first attrpath-value
entry of the let block whose rendered path equals the name. -/
def find_let_binding (children : List SetChild) (name : String) : Option AttrpathValue :=
  (children.filterMap SetChild.toApv).find? fun apv => apv.path == name

/-- Embeds `resolve_let_ident` of main.rs (lines 366-377), with an explicit fuel
parameter making the unbounded Rust recursion total: `none` means the fuel
ran out (the Rust function does not return within that many steps), while
`some none` is the Rust `None` (no matching binding / no value) and
`some (some v)` is the Rust `Some(value)` at the end of the alias chain. -/
def resolve_let_ident (children : List SetChild) : Nat → String → Option (Option NExpr)
  | 0, _ => none
  | fuel + 1, name =>
    match find_let_binding children name with
    | none => some none
    | some apv =>
      match apv.value with
      | none => some none
      | some (.ident inner) => resolve_let_ident children fuel inner
      | some v => some (some v)

/-- Embeds `collect_entries` of main.rs (lines 381-438), with the same fuel
discipline as `resolve_let_ident`: the result is `none` exactly when the run
does not return — either the body-resolution recursion exceeds the fuel or
the `let_in.body().unwrap()` panics on a body-less let. -/
def collect_entries (fuel : Nat) (root : NExpr) (pfx category : String)
    (locs : List (String × String)) (exportList : Option (List String)) :
    Option (List ManualEntry) :=
  match findTop root with
  | some (.letInNode children body) =>
    let scope := mkScope children pfx category locs
    match exportList with
    | some exports => some (exports.filterMap fun name => scopeGet scope name)
    | none =>
      match body with
      | none => none
      | some b =>
        match b with
        | .ident name =>
          match resolve_let_ident children fuel name with
          | none => none
          | some (some resolved) => some (collect_bindings resolved pfx category locs scope)
          | some none => some (collect_bindings b pfx category locs scope)
        | _ => some (collect_bindings b pfx category locs scope)
  | some (.attrSetNode children) =>
    some (collect_bindings (.attrSet children) pfx category locs [])
  | none => some []

/- ===================== claim C1 ===================== -/

/-- C1: when an export list is supplied, `collect_entries` on a module whose
top-level walk finds a let-in returns exactly the already-resolved scope
entries whose names appear in the export list, in export-list order (the
result is the export list filtered through scope lookup); names missing from
the scope are silently dropped by `filterMap`, and the let body is never
inspected: the result is the same for any body and any fuel. -/
theorem collect_entries_export_list (root : NExpr) (children : List SetChild)
    (body : Option NExpr) (exports : List String) (fuel : Nat)
    (pfx category : String) (locs : List (String × String))
    (hTop : findTop root = some (.letInNode children body)) :
    collect_entries fuel root pfx category locs (some exports)
      = some (exports.filterMap fun name => scopeGet (mkScope children pfx category locs) name)
    ∧ (∀ (root' : NExpr) (body' : Option NExpr) (fuel' : Nat),
        findTop root' = some (.letInNode children body') →
        collect_entries fuel' root' pfx category locs (some exports)
          = collect_entries fuel root pfx category locs (some exports)) := by
  constructor
  · simp only [collect_entries, hTop]
  · intro root' body' fuel' hTop'
    simp only [collect_entries, hTop, hTop']

/-- Let-block used by the C1 witness: two documented bindings (one legacy
comment, one structured doc comment) and one undocumented binding. -/
def exportExampleChildren : List SetChild :=
  [.apv "foo" (some (.lit "1")) none (some "foo doc"),
   .apv "bar" (some (.lit "2")) (some "bar doc") none,
   .apv "baz" (some (.lit "3")) none none]

/-- A module wrapping the let-in under another node, with a non-attrset body. -/
def exportExampleRoot : NExpr :=
  .other [.ident "irrelevant", .letIn exportExampleChildren (some (.lit "body"))]

/-- The same let-block under a lambda whose parameter is a pattern (skipped by
the walk), with a missing body (inspecting the body would panic). -/
def exportExampleRootNoBody : NExpr :=
  .lambda (.pattern [.ident "pkgs"]) (.letIn exportExampleChildren none)

/-- Witness for C1: a concrete export list (out of scope order, with a name
absent from the scope) on `exportExampleRoot`; the body and the fuel are
irrelevant, including for a body-less let-in. -/
theorem collect_entries_export_list_witness :
    collect_entries 0 exportExampleRoot "lib" "strings" [] (some ["bar", "missing", "foo"])
      = some (["bar", "missing", "foo"].filterMap fun name =>
          scopeGet (mkScope exportExampleChildren "lib" "strings" []) name)
    ∧ collect_entries 7 exportExampleRootNoBody "lib" "strings" [] (some ["bar", "missing", "foo"])
      = collect_entries 0 exportExampleRoot "lib" "strings" [] (some ["bar", "missing", "foo"]) :=
  ⟨(collect_entries_export_list exportExampleRoot exportExampleChildren
      (some (.lit "body")) ["bar", "missing", "foo"] 0 "lib" "strings" [] rfl).1,
   (collect_entries_export_list exportExampleRoot exportExampleChildren
      (some (.lit "body")) ["bar", "missing", "foo"] 0 "lib" "strings" [] rfl).2
     exportExampleRootNoBody none 7 rfl⟩

/- ===================== claim C3 ===================== -/

/-- The cyclic alias chain of the claim: `x = y; y = x;`. -/
def cyclicChildren : List SetChild :=
  [.apv "x" (some (.ident "y")) none none,
   .apv "y" (some (.ident "x")) none none]

/-- The module `let x = y; y = x; in x`. -/
def cyclicRoot : NExpr := .letIn cyclicChildren (some (.ident "x"))

/-- Statement that `resolve_let_ident` does not return within any number of steps. -/
def ResolveDiverges (children : List SetChild) (name : String) : Prop :=
  ∀ fuel, resolve_let_ident children fuel name = none

/-- Statement that `collect_entries` does not return within any number of steps. -/
def CollectDiverges (root : NExpr) (pfx category : String)
    (locs : List (String × String)) (exportList : Option (List String)) : Prop :=
  ∀ fuel, collect_entries fuel root pfx category locs exportList = none

/-- C3 (the code violates the claim): on the cyclic alias chain
`let x = y; y = x; in x` the resolver does not merely omit the binding — for
every fuel bound, `resolve_let_ident` (and with it the whole
`collect_entries` run) fails to return, modelling the unguarded infinite
recursion of main.rs lines 366-377 (a stack-overflow abort in Rust). -/
theorem resolve_let_ident_cyclic_diverges :
    ResolveDiverges cyclicChildren "x" ∧ CollectDiverges cyclicRoot "lib" "cyc" [] none := by
  have key : ∀ fuel, resolve_let_ident cyclicChildren fuel "x" = none
      ∧ resolve_let_ident cyclicChildren fuel "y" = none := by
    intro fuel
    induction fuel with
    | zero => exact ⟨rfl, rfl⟩
    | succ n ih =>
      constructor
      · have hstep : resolve_let_ident cyclicChildren (n + 1) "x"
            = resolve_let_ident cyclicChildren n "y" := rfl
        rw [hstep]
        exact ih.2
      · have hstep : resolve_let_ident cyclicChildren (n + 1) "y"
            = resolve_let_ident cyclicChildren n "x" := rfl
        rw [hstep]
        exact ih.1
  constructor
  · exact fun fuel => (key fuel).1
  · intro fuel
    have hrun : collect_entries fuel cyclicRoot "lib" "cyc" [] none
        = match resolve_let_ident cyclicChildren fuel "x" with
          | none => none
          | some (some resolved) =>
            some (collect_bindings resolved "lib" "cyc" [] (mkScope cyclicChildren "lib" "cyc" []))
          | some none =>
            some (collect_bindings (.ident "x") "lib" "cyc" [] (mkScope cyclicChildren "lib" "cyc" [])) := rfl
    rw [hrun, (key fuel).1]

/- ===================== claim C4 ===================== -/

/-- The let-block `x = y; y = 5;` of the claim (with a legacy doc comment on
`y` so that the chain end is a documented binding). -/
def chainExampleChildren : List SetChild :=
  [.apv "x" (some (.ident "y")) none none,
   .apv "y" (some (.lit "5")) none (some " Doc for y.\n")]

/-- The module `let x = y; y = 5; in x`. -/
def chainExampleRoot : NExpr := .letIn chainExampleChildren (some (.ident "x"))

/-- C4: when the let body is a bare identifier and the alias chain resolves
(within the fuel) to a value `v`, `collect_entries` collects bindings from
`v` as if it were the body, against the let-block's scope; every recursive
step of the resolution follows exactly one alias link
(`resolve_let_ident (fuel+1) nm = resolve_let_ident fuel inner` when `nm`'s
binding is the identifier `inner`); in the block `x = y; y = 5;` with body
`x`, resolution reaches the binding for `y` and returns its value `5`. -/
theorem collect_entries_ident_body (root : NExpr) (children : List SetChild)
    (name : String) (v : NExpr) (fuel : Nat) (pfx category : String)
    (locs : List (String × String))
    (hTop : findTop root = some (.letInNode children (some (.ident name))))
    (hRes : resolve_let_ident children fuel name = some (some v)) :
    collect_entries fuel root pfx category locs none
      = some (collect_bindings v pfx category locs (mkScope children pfx category locs))
    ∧ (∀ (f : Nat) (nm inner : String) (apv : AttrpathValue),
        find_let_binding children nm = some apv → apv.value = some (.ident inner) →
        resolve_let_ident children (f + 1) nm = resolve_let_ident children f inner)
    ∧ (∀ f : Nat, resolve_let_ident chainExampleChildren (f + 1) "x"
        = resolve_let_ident chainExampleChildren f "y")
    ∧ find_let_binding chainExampleChildren "y"
        = some { path := "y", value := some (.lit "5"), docComment := none,
                 legacyComment := some " Doc for y.\n" }
    ∧ resolve_let_ident chainExampleChildren 2 "x" = some (some (.lit "5")) := by
  refine ⟨?_, ?_, fun f => rfl, rfl, rfl⟩
  · simp only [collect_entries, hTop, hRes]
  · intro f nm inner apv hfind hval
    show (match find_let_binding children nm with
      | none => some none
      | some apv =>
        match apv.value with
        | none => some none
        | some (.ident inner) => resolve_let_ident children f inner
        | some v => some (some v)) = resolve_let_ident children f inner
    rw [hfind]
    simp only [hval]

/-- Witness for C4: the whole statement instantiated on
`let x = y; y = 5; in x` with fuel 2. -/
theorem collect_entries_ident_body_witness :
    collect_entries 2 chainExampleRoot "lib" "math" [] none
      = some (collect_bindings (.lit "5") "lib" "math" []
          (mkScope chainExampleChildren "lib" "math" [])) :=
  (collect_entries_ident_body chainExampleRoot chainExampleChildren "x" (.lit "5")
    2 "lib" "math" [] rfl rfl).1

/- ===================== claim C5 ===================== -/

/-- C5: the legacy comment sub-parser is a three-state line scanner: a line
whose trimmed form begins with `Type:` switches to the Type state and the
remainder of the line becomes the next line of the type text (first line of
that section when the buffer was empty); likewise `Example:`; on
`"Does X.\nType: a -> b\nExample: f 1"` it yields documentation `"Does X."`,
type `"a -> b"`, example `"f 1"`. -/
theorem parse_doc_comment_scanner (st : ParseState) (bufs : ScanBufs) (line suffix : String) :
    (stripPfx? (strTrim line) "Type:" = some suffix →
      scanLine (st, bufs) line
        = (.ty, { bufs with type_str := bufs.type_str ++ suffix ++ "\n" }))
    ∧ (stripPfx? (strTrim line) "Type:" = none →
       stripPfx? (strTrim line) "Example:" = some suffix →
      scanLine (st, bufs) line
        = (.ex, { bufs with example_str := bufs.example_str ++ suffix ++ "\n" }))
    ∧ parse_doc_comment "Does X.\nType: a -> b\nExample: f 1"
        = { doc := "Does X.", doc_type := some "a -> b", exampleText := some "f 1" } := by
  refine ⟨?_, ?_, rfl⟩
  · intro h
    simp only [scanLine, h]
  · intro h1 h2
    simp only [scanLine, h1, h2]

/-- Witness for C5: the two marker-transition conjuncts at concrete lines. -/
theorem parse_doc_comment_scanner_witness :
    scanLine (.doc, { doc_str := "", type_str := "", example_str := "" }) "Type: t"
      = (.ty, { doc_str := "", type_str := "" ++ " t" ++ "\n", example_str := "" })
    ∧ scanLine (.doc, { doc_str := "", type_str := "", example_str := "" }) "Example: e"
      = (.ex, { doc_str := "", type_str := "", example_str := "" ++ " e" ++ "\n" }) :=
  ⟨(parse_doc_comment_scanner .doc
      { doc_str := "", type_str := "", example_str := "" } "Type: t" " t").1 rfl,
   (parse_doc_comment_scanner .doc
      { doc_str := "", type_str := "", example_str := "" } "Example: e" " e").2.1 rfl rfl⟩

/- ===================== claim C6 ===================== -/

/-- C6: an entry documented by a structured doc-comment carries an empty
argument list; lambda parameters are collected (by walking the curried lambda
chain) only when the documentation came from a legacy comment; and the
argument list survives unchanged into the rendered `ManualEntry`. -/
theorem entry_args_only_legacy (apv : AttrpathValue) (e : LegacyDocItem)
    (h : collect_entry_information apv = some e) :
    (apv.docComment ≠ none → e.args = [])
    ∧ (∀ (p b : NExpr), apv.docComment = none → apv.value = some (.lambda p b) →
        e.args = collect_lambda_args_legacy (.lambda p b))
    ∧ (∀ (pfx category : String) (locs : List (String × String)),
        (e.into_entry pfx category locs).args = e.args) := by
  refine ⟨?_, ?_, fun pfx category locs => rfl⟩
  · intro hdc
    cases hd : apv.docComment with
    | none => exact absurd hd hdc
    | some d =>
      simp only [collect_entry_information, retrieve_doc_item, retrieve_doc_comment, hd,
        Option.map_some', Option.some.injEq] at h
      rw [← h]
  · intro p b hd hv
    cases hl : apv.legacyComment with
    | none =>
      simp only [collect_entry_information, retrieve_doc_item, retrieve_doc_comment, hd, hl,
        Option.map_none'] at h
      exact Option.noConfusion h
    | some c =>
      simp only [collect_entry_information, retrieve_doc_item, retrieve_doc_comment, hd, hl, hv,
        Option.map_none', Option.map_some', Option.some.injEq] at h
      rw [← h]

/-- Structured-doc-comment binding whose value is a lambda (for the C6
witness: the arguments are still empty). -/
def structuredApv : AttrpathValue :=
  { path := "f", value := some (.lambda (.ident "a") (.ident "a")),
    docComment := some "Doc.", legacyComment := none }

/-- Legacy-comment binding whose value is a lambda (for the C6 witness). -/
def legacyApv : AttrpathValue :=
  { path := "g", value := some (.lambda (.ident "a") (.ident "a")),
    docComment := none, legacyComment := some "Legacy doc." }

/-- The entry `collect_entry_information` produces for `structuredApv`
(defaulting, if absent, to a sentinel with a non-empty argument list). -/
def structuredEntry : LegacyDocItem :=
  (collect_entry_information structuredApv).getD
    { name := "", comment := { doc := "", doc_type := none, exampleText := none },
      args := [.flat "sentinel"] }

/-- The entry `collect_entry_information` produces for `legacyApv`. -/
def legacyEntry : LegacyDocItem :=
  (collect_entry_information legacyApv).getD
    { name := "", comment := { doc := "", doc_type := none, exampleText := none },
      args := [] }

/-- Witness for C6: the structured-doc-comment entry for a lambda-valued
binding has no arguments, while the legacy entry for the same shape collects
the lambda parameters. -/
theorem entry_args_only_legacy_witness :
    structuredEntry.args = []
    ∧ legacyEntry.args = collect_lambda_args_legacy (.lambda (.ident "a") (.ident "a")) :=
  ⟨(entry_args_only_legacy structuredApv structuredEntry rfl).1 (by decide),
   (entry_args_only_legacy legacyApv legacyEntry rfl).2.1 (.ident "a") (.ident "a") rfl rfl⟩

/- ===================== claim C10 ===================== -/

/-- The names of the attrpath-value bindings of a let block (the only names
`find_let_binding` can ever find). -/
def apvPaths (children : List SetChild) : List String :=
  (children.filterMap SetChild.toApv).map fun apv => apv.path

/-- The chain of binding names `resolve_let_ident` visits, bounded by fuel:
each recursive call follows exactly one alias link. -/
def resolveTrace (children : List SetChild) : Nat → String → List String
  | 0, _ => []
  | fuel + 1, name =>
    match find_let_binding children name with
    | none => [name]
    | some apv =>
      match apv.value with
      | none => [name]
      | some (.ident inner) => name :: resolveTrace children fuel inner
      | some _ => [name]

theorem resolve_succ_eq (children : List SetChild) (fuel : Nat) (name : String) :
    resolve_let_ident children (fuel + 1) name
      = match find_let_binding children name with
        | none => some none
        | some apv =>
          match apv.value with
          | none => some none
          | some (.ident inner) => resolve_let_ident children fuel inner
          | some v => some (some v) := rfl

theorem trace_succ_eq (children : List SetChild) (fuel : Nat) (name : String) :
    resolveTrace children (fuel + 1) name
      = match find_let_binding children name with
        | none => [name]
        | some apv =>
          match apv.value with
          | none => [name]
          | some (.ident inner) => name :: resolveTrace children fuel inner
          | some _ => [name] := rfl

theorem path_mem_of_find (children : List SetChild) (name : String) (apv : AttrpathValue)
    (h : find_let_binding children name = some apv) : name ∈ apvPaths children := by
  unfold find_let_binding at h
  have hmem := List.mem_of_find?_eq_some h
  have hpn : (apv.path == name) = true :=
    List.find?_some (p := fun a : AttrpathValue => a.path == name) h
  rw [beq_iff_eq] at hpn
  unfold apvPaths
  rw [← hpn]
  exact List.mem_map_of_mem _ hmem

theorem resolve_runout (children : List SetChild) :
    ∀ (fuel : Nat) (name : String), resolve_let_ident children fuel name = none →
      (resolveTrace children fuel name).length = fuel
      ∧ ∀ m ∈ resolveTrace children fuel name, m ∈ apvPaths children := by
  intro fuel
  induction fuel with
  | zero =>
    intro name _
    refine ⟨rfl, ?_⟩
    intro m hm
    simp [resolveTrace] at hm
  | succ n ih =>
    intro name h
    rw [resolve_succ_eq] at h
    cases hfind : find_let_binding children name with
    | none =>
      rw [hfind] at h
      exact Option.noConfusion h
    | some apv =>
      rw [hfind] at h
      cases hval : apv.value with
      | none => simp [hval] at h
      | some v =>
        simp only [hval] at h
        cases v with
        | ident inner =>
          obtain ⟨hlen, hmem⟩ := ih inner h
          have hgoal : resolveTrace children (n + 1) name
              = name :: resolveTrace children n inner := by
            rw [trace_succ_eq, hfind]
            simp only [hval]
          rw [hgoal]
          refine ⟨by simp [hlen], ?_⟩
          intro m hm
          rcases List.mem_cons.mp hm with rfl | hm2
          · exact path_mem_of_find children m apv hfind
          · exact hmem m hm2
        | lit t => simp at h
        | lambda p b => simp at h
        | attrSet ch => simp at h
        | letIn ch b => simp at h
        | pattern ch => simp at h
        | other ch => simp at h

theorem resolve_mono (children : List SetChild) :
    ∀ (fuel : Nat) (name : String) (r : Option NExpr),
      resolve_let_ident children fuel name = some r →
      resolve_let_ident children (fuel + 1) name = some r := by
  intro fuel
  induction fuel with
  | zero => intro name r h; exact Option.noConfusion h
  | succ n ih =>
    intro name r h
    rw [resolve_succ_eq] at h
    rw [resolve_succ_eq]
    cases hfind : find_let_binding children name with
    | none =>
      rw [hfind] at h
      exact h
    | some apv =>
      rw [hfind] at h
      cases hval : apv.value with
      | none =>
        simp only [hval] at h ⊢
        exact h
      | some v =>
        simp only [hval] at h ⊢
        cases v with
        | ident inner => exact ih inner r h
        | lit t => exact h
        | lambda p b => exact h
        | attrSet ch => exact h
        | letIn ch b => exact h
        | pattern ch => exact h
        | other ch => exact h

theorem resolve_mono_le (children : List SetChild) (fuel fuel' : Nat) (name : String)
    (r : Option NExpr) (hle : fuel ≤ fuel')
    (h : resolve_let_ident children fuel name = some r) :
    resolve_let_ident children fuel' name = some r := by
  induction fuel' with
  | zero =>
    have h0 : fuel = 0 := Nat.le_zero.mp hle
    rw [← h0]; exact h
  | succ n ih =>
    rcases Nat.lt_or_ge fuel (n + 1) with hlt | hge
    · exact resolve_mono children n name r (ih (Nat.lt_succ_iff.mp hlt))
    · have heq : fuel = n + 1 := Nat.le_antisymm hle hge
      rw [← heq]; exact h

/-- C10: when the alias chain reachable from `name` among the let bindings is
acyclic (the visited-name trace, cut off at one more than the number of
bindings, has no duplicate), `resolve_let_ident` terminates: there is a
result it returns for every sufficient fuel.  The accompanying step laws say
each recursive call follows exactly one alias link, a missing binding ends
the chain with `None`, and a non-identifier value ends the chain with that
value. -/
theorem resolve_let_ident_terminates (children : List SetChild) (name : String)
    (h : (resolveTrace children ((apvPaths children).length + 1) name).Nodup) :
    (∃ r, ∀ fuel, (apvPaths children).length + 1 ≤ fuel →
        resolve_let_ident children fuel name = some r)
    ∧ (∀ (f : Nat) (nm inner : String) (apv : AttrpathValue),
        find_let_binding children nm = some apv → apv.value = some (.ident inner) →
        resolve_let_ident children (f + 1) nm = resolve_let_ident children f inner)
    ∧ (∀ (f : Nat) (nm : String), find_let_binding children nm = none →
        resolve_let_ident children (f + 1) nm = some none)
    ∧ (∀ (f : Nat) (nm : String) (apv : AttrpathValue) (v : NExpr),
        find_let_binding children nm = some apv → apv.value = some v →
        (∀ i, v ≠ .ident i) → resolve_let_ident children (f + 1) nm = some (some v)) := by
  refine ⟨?_, ?_, ?_, ?_⟩
  · cases hres : resolve_let_ident children ((apvPaths children).length + 1) name with
    | none =>
      exfalso
      obtain ⟨hlen, hmem⟩ := resolve_runout children _ name hres
      have hsub : resolveTrace children ((apvPaths children).length + 1) name
          ⊆ apvPaths children := hmem
      have hsp := List.subperm_of_subset h hsub
      have hle := hsp.length_le
      rw [hlen] at hle
      omega
    | some r =>
      exact ⟨r, fun fuel hf => resolve_mono_le children _ fuel name r hf hres⟩
  · intro f nm inner apv hfind hval
    rw [resolve_succ_eq, hfind]
    simp only [hval]
  · intro f nm hfind
    rw [resolve_succ_eq, hfind]
  · intro f nm apv v hfind hval hni
    rw [resolve_succ_eq, hfind]
    cases v with
    | ident i => exact absurd rfl (hni i)
    | lit t => simp only [hval]
    | lambda p b => simp only [hval]
    | attrSet ch => simp only [hval]
    | letIn ch b => simp only [hval]
    | pattern ch => simp only [hval]
    | other ch => simp only [hval]

/-- Witness for C10: the acyclic chain `x = y; y = 5;` of
`chainExampleChildren` (two bindings, so the trace bound is 3); its trace
from `x` is `["x", "y"]`, duplicate-free, and the theorem yields a stable
result for all fuels from 3 on. -/
theorem resolve_let_ident_terminates_witness :
    (resolveTrace chainExampleChildren 3 "x").Nodup
    ∧ ∃ r, ∀ fuel, 3 ≤ fuel → resolve_let_ident chainExampleChildren fuel "x" = some r :=
  ⟨by decide, (resolve_let_ident_terminates chainExampleChildren "x" (by decide)).1⟩

/- ===================== claim C9 ===================== -/

/-- C9: both pipelines are deterministic.  The interesting half is the
options pipeline: its output does not depend on the iteration order of the
parsed options hash map — any reordering (permutation) of the underlying
association list with duplicate-free keys yields the identical document,
because the renderer sorts the names with the total order
`compare_option_names` and looks options up by key.  The entries pipeline is
a pure function of the parsed module, prefix, category, location map and
export list, so equal inputs trivially yield equal outputs in this
embedding. -/
theorem pipelines_deterministic :
    (∀ (l1 l2 : OptionsMap) (title : String) (preamble : Option String)
        (ropts : RenderOptions),
      ((l1 : List (String × OptionDef)).map fun p => p.1).Nodup →
      List.Perm (l1 : List (String × OptionDef)) l2 →
      render_options_document l1 title preamble ropts
        = render_options_document l2 title preamble ropts)
    ∧ (∀ (fuel : Nat) (root : NExpr) (pfx category : String)
        (locs : List (String × String)) (exportList : Option (List String)),
      collect_entries fuel root pfx category locs exportList
        = collect_entries fuel root pfx category locs exportList) := by
  constructor
  · intro l1 l2 title preamble ropts hnd hperm
    unfold render_options_document
    rw [render_options_to_commonmark_perm l1 l2 ropts hnd hperm]
  · intro fuel root pfx category locs exportList
    rfl

/-- Two orderings of the same two-option map (for the C9 witness). -/
def permutedOptionsA : OptionsMap :=
  [("a.one", emptyOptionDef), ("b.two", emptyOptionDef)]

/-- The reversed ordering of `permutedOptionsA`. -/
def permutedOptionsB : OptionsMap :=
  [("b.two", emptyOptionDef), ("a.one", emptyOptionDef)]

/-- Witness for C9: the two orderings of the same map render identically. -/
theorem pipelines_deterministic_witness :
    render_options_document permutedOptionsA "Module Options" none RenderOptions.defaultValue
      = render_options_document permutedOptionsB "Module Options" none RenderOptions.defaultValue :=
  pipelines_deterministic.1 permutedOptionsA permutedOptionsB "Module Options" none
    RenderOptions.defaultValue (by decide)
    (List.Perm.swap ("b.two", emptyOptionDef) ("a.one", emptyOptionDef) [])
